import Mathlib

/-!
# Verification of the m2m mode-conversion core

Shallow embedding of the core logic of `final.py` (mode registry,
modal transformer `convert_to_mode`, tonic inference
`infer_tonic_name`) together with the pitch-name helpers of the
`pretty_midi` library that the front ends (`web_app.py`,
`netlify/functions/convert.py`) use to recompute the tonic pitch
class from the inferred tonic name.

Python integers are modelled as `Int`; Python `%` and `//` on a
positive modulus agree with Lean's `Int.emod` / `Int.ediv`, which are
the `%` and `/` of `Int` here.  In-place mutation of the note
collection is modelled by explicit state passing: `convert_to_mode`
returns the post-state collection next to the `Except` result, and on
an error path it returns the input collection unchanged, mirroring the
fact that the Python exception is raised before the note loop starts.
-/

/-- A sounded note event; the core reads and writes only its pitch
(`pretty_midi.Note.pitch`).  Other attributes (onset, duration,
velocity) are never touched and are omitted. -/
structure Note where
  pitch : Int
deriving DecidableEq

/-- An instrument group: `pretty_midi.Instrument`, holding its notes. -/
structure Instrument where
  notes : List Note
deriving DecidableEq

/-- The note collection: `pretty_midi.PrettyMIDI`, a list of
instrument groups. -/
structure PrettyMIDI where
  instruments : List Instrument
deriving DecidableEq

/-- One entry of the mode table: the scale degrees to lower and the
scale degrees to raise, as in the Python dicts
`{'lower': {...}, 'raise': {...}}`. -/
structure ModeInfo where
  lower : Finset Int
  raise : Finset Int
deriving DecidableEq

/-- `MODE_MAP` of `final.py` (lines 35–45): the mode registry as an
association list from mode identifier to its degree sets, in the
source's order. -/
def MODE_MAP : List (String × ModeInfo) :=
  [ ("ionian",         ⟨∅, ∅⟩),
    ("aeolian",        ⟨{4, 9, 11}, ∅⟩),
    ("harmonic_minor", ⟨{4, 9}, ∅⟩),
    ("dorian",         ⟨{4, 11}, ∅⟩),
    ("phrygian",       ⟨{2, 4, 9, 11}, ∅⟩),
    ("lydian",         ⟨∅, {5}⟩),
    ("mixolydian",     ⟨{11}, ∅⟩),
    ("locrian",        ⟨{2, 4, 7, 9, 11}, ∅⟩),
    ("major",          ⟨∅, {3, 8, 10}⟩) ]

/-- `MODE_MAP.get(mode)`: dictionary lookup in the registry. -/
def lookupMode (mode : String) : Option ModeInfo :=
  MODE_MAP.lookup mode

/-- The per-note pitch update inside the loop of `convert_to_mode`
(`final.py` lines 57–61): compute the degree `pc = (pitch - tonic) % 12`,
lower by one semitone if it is in `to_lower`, else raise by one if it
is in `to_raise`, else leave unchanged. -/
def shiftPitch (to_lower to_raise : Finset Int) (tonic_pc : Int) (p : Int) : Int :=
  let pc := (p - tonic_pc) % 12
  if pc ∈ to_lower then p - 1
  else if pc ∈ to_raise then p + 1
  else p

/-- `mode.replace('_', ' ')` — every underscore of the identifier
becomes a space (the pattern is a single character, so `str.replace`
is a character map). -/
def displayLabel (mode : String) : String :=
  ⟨mode.data.map (fun c => if c = '_' then ' ' else c)⟩

/-- `convert_to_mode` of `final.py` (lines 48–62).  The first
component of the result is the note collection after the call (the
Python function mutates `pm` in place); the second is `Except.error`
for the `ValueError` raised on an unregistered mode, or `Except.ok`
with the returned description string.  The registry lookup and the
failure happen before any note is visited, so on error the collection
is returned untouched. -/
def convert_to_mode (pm : PrettyMIDI) (tonic_pc : Int) (mode : String) :
    PrettyMIDI × Except String String :=
  match lookupMode mode with
  | none => (pm, .error ("Unsupported mode: " ++ mode))
  | some info =>
      (⟨pm.instruments.map (fun inst =>
          ⟨inst.notes.map (fun note =>
            ⟨shiftPitch info.lower info.raise tonic_pc note.pitch⟩)⟩)⟩,
       .ok (displayLabel mode))

example :
    convert_to_mode ⟨[⟨[⟨60⟩, ⟨63⟩]⟩]⟩ 0 "major" =
      (⟨[⟨[⟨60⟩, ⟨64⟩]⟩]⟩, .ok "major") := rfl

example :
    convert_to_mode ⟨[⟨[⟨60⟩]⟩]⟩ 0 "dummy" =
      (⟨[⟨[⟨60⟩]⟩]⟩, .error "Unsupported mode: dummy") := rfl

/-- The pitch list `[note.pitch for inst in pm.instruments for note in
inst.notes]` of `infer_tonic_name` (`final.py` line 66). -/
def allPitches (pm : PrettyMIDI) : List Int :=
  (pm.instruments.map (fun inst => inst.notes.map Note.pitch)).flatten

/-- Total number of notes across all instrument groups. -/
def totalNotes (pm : PrettyMIDI) : Nat :=
  (pm.instruments.map (fun inst => inst.notes.length)).sum

/-- One step of the argmax scan behind `most_common1`: keep the
current best `b`, replacing it only when `y` is strictly more
frequent in `l`. -/
def mcStep (l : List Int) (acc : Option Int) (y : Int) : Option Int :=
  match acc with
  | none => some y
  | some b => if l.count b < l.count y then some y else some b

/-- `Counter(pcs).most_common(1)[0][0]` (`final.py` line 70): the
element of `l` with the largest multiplicity; among equally frequent
elements the one whose first occurrence comes first wins (`Counter`
stores keys in first-occurrence order and `most_common` is stable, so
scanning `l` itself with a strict-improvement argmax computes the
same answer).  `none` exactly when the list is empty (where Python
would raise an `IndexError`). -/
def most_common1 (l : List Int) : Option Int :=
  l.foldl (mcStep l) none

/-- The body of `infer_tonic_name` (`final.py` lines 66–72) up to the
absolute median pitch: guard against an empty pitch list, take the
most frequent pitch class, sort the pitches sharing it ascending
(Python's `sorted`, written as insertion sort — on integers every
correct sort returns the same list), and pick the one at the median
position.  The two `getD` defaults are unreachable (proved below):
`most_common1` is `some` on a non-empty list and the filtered list is
non-empty since the winning pitch class occurs. -/
def infer_tonic_median (pm : PrettyMIDI) : Except String Int :=
  let pitches := allPitches pm
  if pitches.isEmpty then
    .error "No notes found in this MIDI to infer a tonic from."
  else
    let pcs := pitches.map (fun p => p % 12)
    let tonic_pc := (most_common1 pcs).getD 0
    let same_pc :=
      (pitches.filter (fun p => p % 12 == tonic_pc)).insertionSort (· ≤ ·)
    .ok (same_pc.getD (same_pc.length / 2) 0)

/-- The `semis` table used by `pretty_midi.note_number_to_name`,
as a function of the pitch-class index 0–11 (sharp spellings). -/
def semisName : Nat → String
  | 0 => "C"
  | 1 => "C#"
  | 2 => "D"
  | 3 => "D#"
  | 4 => "E"
  | 5 => "F"
  | 6 => "F#"
  | 7 => "G"
  | 8 => "G#"
  | 9 => "A"
  | 10 => "A#"
  | 11 => "B"
  | _ => ""

/-- Model of the external `pretty_midi.note_number_to_name`:
`semis[note_number % 12] + str(note_number // 12 - 1)`. -/
def note_number_to_name (p : Int) : String :=
  semisName (p % 12).toNat ++ toString (p / 12 - 1)

/-- `infer_tonic_name` of `final.py` (lines 65–73): the name of the
median pitch among those sharing the most frequent pitch class. -/
def infer_tonic_name (pm : PrettyMIDI) : Except String String :=
  (infer_tonic_median pm).map note_number_to_name

/-- Letter component of `pretty_midi.note_name_to_number`'s regex
`[A-Ga-g]` combined with its `pitch_map` (after `.upper()`). -/
def letterPitch : Char → Option Int
  | 'C' => some 0 | 'D' => some 2 | 'E' => some 4 | 'F' => some 5
  | 'G' => some 7 | 'A' => some 9 | 'B' => some 11
  | 'c' => some 0 | 'd' => some 2 | 'e' => some 4 | 'f' => some 5
  | 'g' => some 7 | 'a' => some 9 | 'b' => some 11
  | _ => none

/-- Value of a non-empty all-digit character run (`\d+`). -/
def digitsVal (cs : List Char) : Option Nat :=
  if cs ≠ [] ∧ cs.all Char.isDigit then
    some (cs.foldl (fun acc c => acc * 10 + (c.toNat - 48)) 0)
  else none

/-- The octave component `[+-]?\d+` of the note-name regex, as a
signed integer (`int(...)` in Python). -/
def parseOctave : List Char → Option Int
  | '-' :: rest => (digitsVal rest).map (fun n => -(n : Int))
  | '+' :: rest => (digitsVal rest).map (fun n => (n : Int))
  | rest => (digitsVal rest).map (fun n => (n : Int))

/-- Model of the external `pretty_midi.note_name_to_number`: parse
`^[A-Ga-g][#b!]?[+-]?\d+$` and return
`12*(octave + 1) + pitch + offset`; `none` where Python raises
`ValueError("Improper note format ...")`. -/
def note_name_to_number (s : String) : Option Int :=
  match s.data with
  | [] => none
  | c :: rest =>
    (letterPitch c).bind (fun pitch =>
      match rest with
      | '#' :: rest2 => (parseOctave rest2).map (fun o => 12 * (o + 1) + pitch + 1)
      | 'b' :: rest2 => (parseOctave rest2).map (fun o => 12 * (o + 1) + pitch - 1)
      | '!' :: rest2 => (parseOctave rest2).map (fun o => 12 * (o + 1) + pitch - 1)
      | rest2 => (parseOctave rest2).map (fun o => 12 * (o + 1) + pitch))

/-- The tonic pitch class as every front end of the repository
recomputes it from the inferred name:
`pretty_midi.note_name_to_number(infer_tonic_name(pm)) % 12`
(`final.py` line 193, `web_app.py` line 41,
`netlify/functions/convert.py` line 48). -/
def infer_tonic_pc (pm : PrettyMIDI) : Except String Int :=
  match infer_tonic_name pm with
  | .error e => .error e
  | .ok name =>
    match note_name_to_number name with
    | none => .error ("Improper note format: " ++ name)
    | some n => .ok (n % 12)

example : infer_tonic_name ⟨[⟨[⟨60⟩, ⟨60⟩, ⟨63⟩]⟩]⟩ = .ok "C4" := rfl

example : infer_tonic_pc ⟨[⟨[⟨60⟩, ⟨72⟩, ⟨48⟩, ⟨63⟩]⟩]⟩ = .ok 0 := rfl

example : note_name_to_number "D#-1" = some 3 := rfl

/-! ## Registry lemmas -/

/-- A successful registry lookup returns one of the registry's
entries. -/
theorem lookupMode_mem {s : String} {info : ModeInfo} (h : lookupMode s = some info) :
    (s, info) ∈ MODE_MAP := by
  unfold lookupMode MODE_MAP at h
  unfold MODE_MAP
  simp only [List.lookup] at h
  repeat' split at h
  all_goals simp_all

/-! ## `most_common1` lemmas -/

/-- Invariant of the argmax scan: starting from a current best `b`,
the scan ends on some `c` that is `b` or comes from the remaining
list, is at least as frequent as `b`, and is at least as frequent as
everything in the remaining list. -/
theorem mcStep_fold_spec (l : List Int) (t : List Int) (b : Int) :
    ∃ c, t.foldl (mcStep l) (some b) = some c ∧ (c = b ∨ c ∈ t) ∧
      l.count b ≤ l.count c ∧ ∀ y ∈ t, l.count y ≤ l.count c := by
  induction t generalizing b with
  | nil => exact ⟨b, rfl, Or.inl rfl, le_refl _, by simp⟩
  | cons y t ih =>
    simp only [List.foldl_cons]
    have hstep : mcStep l (some b) y =
        if l.count b < l.count y then some y else some b := rfl
    by_cases h : l.count b < l.count y
    · rw [hstep, if_pos h]
      obtain ⟨c, hc, hmem, hb, hall⟩ := ih y
      refine ⟨c, hc, ?_, le_trans (le_of_lt h) hb, ?_⟩
      · rcases hmem with rfl | hm
        · exact Or.inr (List.mem_cons_self _ _)
        · exact Or.inr (List.mem_cons_of_mem _ hm)
      · intro z hz
        rcases List.mem_cons.1 hz with rfl | hz
        · exact hb
        · exact hall z hz
    · rw [hstep, if_neg h]
      obtain ⟨c, hc, hmem, hb, hall⟩ := ih b
      refine ⟨c, hc, ?_, hb, ?_⟩
      · rcases hmem with rfl | hm
        · exact Or.inl rfl
        · exact Or.inr (List.mem_cons_of_mem _ hm)
      · intro z hz
        rcases List.mem_cons.1 hz with rfl | hz
        · exact le_trans (le_of_not_lt h) hb
        · exact hall z hz

/-- On a non-empty list, `most_common1` returns an element of
maximal multiplicity. -/
theorem most_common1_spec {l : List Int} (h : l ≠ []) :
    ∃ c, most_common1 l = some c ∧ c ∈ l ∧ ∀ y ∈ l, l.count y ≤ l.count c := by
  match l, h with
  | x :: xs, _ =>
    obtain ⟨c, hc, hmem, hb, hall⟩ := mcStep_fold_spec (x :: xs) xs x
    refine ⟨c, ?_, ?_, ?_⟩
    · show (x :: xs).foldl (mcStep (x :: xs)) none = some c
      simpa [List.foldl_cons, mcStep] using hc
    · rcases hmem with rfl | hm
      · exact List.mem_cons_self _ _
      · exact List.mem_cons_of_mem _ hm
    · intro y hy
      rcases List.mem_cons.1 hy with rfl | hy
      · exact hb
      · exact hall y hy

/-- When one element strictly outnumbers every other element,
`most_common1` returns it; no tie-break ambiguity is involved. -/
theorem most_common1_majority {l : List Int} {k : Int} (hk : k ∈ l)
    (hmaj : ∀ y ∈ l, y ≠ k → l.count y < l.count k) :
    most_common1 l = some k := by
  obtain ⟨c, hc, hcmem, hall⟩ := most_common1_spec (List.ne_nil_of_mem hk)
  by_cases hck : c = k
  · rw [hc, hck]
  · exact absurd (hall k hk) (not_le.2 (hmaj c hcmem hck))

/-- The nine registered mode identifiers, in registry order. -/
theorem lookupMode_isSome_iff (s : String) :
    (lookupMode s).isSome ↔
      s ∈ ["ionian", "aeolian", "harmonic_minor", "dorian", "phrygian",
           "lydian", "mixolydian", "locrian", "major"] := by
  unfold lookupMode MODE_MAP
  simp only [List.lookup]
  repeat' split
  all_goals simp_all

/-! ## Claim theorems (registry and transformer) -/

/-- C4: the mode registry contains exactly the nine identifiers
`ionian, aeolian, harmonic_minor, dorian, phrygian, lydian,
mixolydian, locrian, major` — a lookup succeeds precisely on these —
and each identifier maps to exactly the lower/raise degree sets of
the spec's table.  (The registry is a constant of the model, so it is
never mutated by construction.) -/
theorem mode_registry_exact (s : String) :
    ((lookupMode s).isSome ↔
      s ∈ ["ionian", "aeolian", "harmonic_minor", "dorian", "phrygian",
           "lydian", "mixolydian", "locrian", "major"]) ∧
    lookupMode "ionian" = some ⟨∅, ∅⟩ ∧
    lookupMode "aeolian" = some ⟨{4, 9, 11}, ∅⟩ ∧
    lookupMode "harmonic_minor" = some ⟨{4, 9}, ∅⟩ ∧
    lookupMode "dorian" = some ⟨{4, 11}, ∅⟩ ∧
    lookupMode "phrygian" = some ⟨{2, 4, 9, 11}, ∅⟩ ∧
    lookupMode "lydian" = some ⟨∅, {5}⟩ ∧
    lookupMode "mixolydian" = some ⟨{11}, ∅⟩ ∧
    lookupMode "locrian" = some ⟨{2, 4, 7, 9, 11}, ∅⟩ ∧
    lookupMode "major" = some ⟨∅, {3, 8, 10}⟩ :=
  ⟨lookupMode_isSome_iff s, rfl, rfl, rfl, rfl, rfl, rfl, rfl, rfl, rfl⟩

/-- C10: when the requested mode is not registered, `convert_to_mode`
fails with the unsupported-mode error and the note collection is
returned exactly as it came in: the lookup and the failure happen
before any note is visited, so the operation is atomic on error. -/
theorem convert_unsupported_atomic (pm : PrettyMIDI) (tonic : Int) (mode : String)
    (h : lookupMode mode = none) :
    convert_to_mode pm tonic mode = (pm, .error ("Unsupported mode: " ++ mode)) := by
  unfold convert_to_mode
  rw [h]

/-- Witness for C10 at a concrete collection and the mode `"dummy"`. -/
theorem convert_unsupported_atomic_witness :
    convert_to_mode ⟨[⟨[⟨60⟩, ⟨64⟩]⟩]⟩ 3 "dummy" =
      (⟨[⟨[⟨60⟩, ⟨64⟩]⟩]⟩, .error "Unsupported mode: dummy") :=
  convert_unsupported_atomic ⟨[⟨[⟨60⟩, ⟨64⟩]⟩]⟩ 3 "dummy" rfl

/-- C8: for every mode definition reachable through the registry, the
lower set and the raise set are disjoint, and consequently checking
the raise set before the lower set computes the same per-note result
as the source's lower-first order. -/
theorem mode_degree_sets_disjoint (s : String) (info : ModeInfo) (tonic p : Int)
    (h : lookupMode s = some info) :
    info.lower ∩ info.raise = ∅ ∧
    (if (p - tonic) % 12 ∈ info.raise then p + 1
     else if (p - tonic) % 12 ∈ info.lower then p - 1
     else p) = shiftPitch info.lower info.raise tonic p := by
  have hmem : (s, info) ∈ MODE_MAP := lookupMode_mem h
  have hdisj : info.lower ∩ info.raise = ∅ := by
    have hall : ∀ e ∈ MODE_MAP, e.2.lower ∩ e.2.raise = ∅ := by decide
    exact hall _ hmem
  refine ⟨hdisj, ?_⟩
  unfold shiftPitch
  by_cases hl : (p - tonic) % 12 ∈ info.lower
  · have hr : (p - tonic) % 12 ∉ info.raise := by
      intro hr
      have hx : (p - tonic) % 12 ∈ info.lower ∩ info.raise :=
        Finset.mem_inter.2 ⟨hl, hr⟩
      rw [hdisj] at hx
      exact absurd hx (Finset.not_mem_empty _)
    simp [hl, hr]
  · by_cases hr : (p - tonic) % 12 ∈ info.raise <;> simp [hl, hr]

/-- Witness for C8 at the aeolian entry, tonic 2, pitch 66
(degree 4, which is lowered). -/
theorem mode_degree_sets_disjoint_witness :
    (⟨{4, 9, 11}, ∅⟩ : ModeInfo).lower ∩ (⟨{4, 9, 11}, ∅⟩ : ModeInfo).raise = ∅ ∧
    (if ((66 : Int) - 2) % 12 ∈ (⟨{4, 9, 11}, ∅⟩ : ModeInfo).raise then (66 : Int) + 1
     else if ((66 : Int) - 2) % 12 ∈ (⟨{4, 9, 11}, ∅⟩ : ModeInfo).lower then (66 : Int) - 1
     else (66 : Int)) =
      shiftPitch (⟨{4, 9, 11}, ∅⟩ : ModeInfo).lower (⟨{4, 9, 11}, ∅⟩ : ModeInfo).raise 2 66 :=
  mode_degree_sets_disjoint "aeolian" ⟨{4, 9, 11}, ∅⟩ 2 66 rfl

/-- C7: from pitches 60, 63, 68, 70 (degrees 0, 3, 8, 10 over tonic
pitch class 0), converting to `"major"` yields 60, 64, 69, 71, and
converting that result to `"aeolian"` with the same tonic restores
exactly the original pitches: the two tables compose to the identity
on this degree set. -/
theorem major_aeolian_inverse_pair :
    (convert_to_mode ⟨[⟨[⟨60⟩, ⟨63⟩, ⟨68⟩, ⟨70⟩]⟩]⟩ 0 "major").1 =
      ⟨[⟨[⟨60⟩, ⟨64⟩, ⟨69⟩, ⟨71⟩]⟩]⟩ ∧
    (convert_to_mode
        (convert_to_mode ⟨[⟨[⟨60⟩, ⟨63⟩, ⟨68⟩, ⟨70⟩]⟩]⟩ 0 "major").1
        0 "aeolian").1 =
      ⟨[⟨[⟨60⟩, ⟨63⟩, ⟨68⟩, ⟨70⟩]⟩]⟩ :=
  ⟨rfl, rfl⟩

/-- C6: looking up any identifier outside the registry fails, and
`convert_to_mode` then fails with the unsupported-mode error; every
registered identifier succeeds, and the returned display label is the
identifier with each underscore replaced by a space (shown literally
for all nine identifiers in the last conjunct). -/
theorem mode_errors_and_labels (pm : PrettyMIDI) (tonic : Int) (s : String) :
    (s ∉ ["ionian", "aeolian", "harmonic_minor", "dorian", "phrygian",
          "lydian", "mixolydian", "locrian", "major"] →
      lookupMode s = none ∧
      convert_to_mode pm tonic s = (pm, .error ("Unsupported mode: " ++ s))) ∧
    (s ∈ ["ionian", "aeolian", "harmonic_minor", "dorian", "phrygian",
          "lydian", "mixolydian", "locrian", "major"] →
      ∃ info pm', lookupMode s = some info ∧
        convert_to_mode pm tonic s = (pm', .ok (displayLabel s))) ∧
    MODE_MAP.map (fun e => displayLabel e.1) =
      ["ionian", "aeolian", "harmonic minor", "dorian", "phrygian",
       "lydian", "mixolydian", "locrian", "major"] := by
  refine ⟨?_, ?_, rfl⟩
  · intro hs
    have hnone : lookupMode s = none := by
      have := (lookupMode_isSome_iff s).not
      simp only [Option.not_isSome_iff_eq_none] at this
      exact this.2 hs
    refine ⟨hnone, ?_⟩
    unfold convert_to_mode
    rw [hnone]
  · intro hs
    have hsome : (lookupMode s).isSome := (lookupMode_isSome_iff s).2 hs
    obtain ⟨info, hinfo⟩ := Option.isSome_iff_exists.1 hsome
    refine ⟨info, ⟨pm.instruments.map (fun inst =>
        ⟨inst.notes.map (fun note =>
          ⟨shiftPitch info.lower info.raise tonic note.pitch⟩)⟩)⟩, hinfo, ?_⟩
    unfold convert_to_mode
    rw [hinfo]

/-- Witness for C6 at `"dummy"` (rejected) and `"harmonic_minor"`
(accepted, with label `"harmonic minor"`). -/
theorem mode_errors_and_labels_witness :
    (lookupMode "dummy" = none ∧
      convert_to_mode ⟨[⟨[⟨61⟩]⟩]⟩ 0 "dummy" =
        (⟨[⟨[⟨61⟩]⟩]⟩, .error "Unsupported mode: dummy")) ∧
    ∃ info pm', lookupMode "harmonic_minor" = some info ∧
      convert_to_mode ⟨[⟨[⟨61⟩]⟩]⟩ 0 "harmonic_minor" =
        (pm', .ok (displayLabel "harmonic_minor")) :=
  ⟨(mode_errors_and_labels ⟨[⟨[⟨61⟩]⟩]⟩ 0 "dummy").1 (by decide),
   (mode_errors_and_labels ⟨[⟨[⟨61⟩]⟩]⟩ 0 "harmonic_minor").2.1 (by decide)⟩

/-- `shiftPitch` written without the `let`, for rewriting. -/
theorem shiftPitch_eq (L R : Finset Int) (t p : Int) :
    shiftPitch L R t p =
      if (p - t) % 12 ∈ L then p - 1
      else if (p - t) % 12 ∈ R then p + 1
      else p := rfl

/-- `convert_to_mode` on a registered mode, written out. -/
theorem convert_to_mode_some {mode : String} {info : ModeInfo}
    (h : lookupMode mode = some info) (pm : PrettyMIDI) (tonic : Int) :
    convert_to_mode pm tonic mode =
      (⟨pm.instruments.map (fun inst =>
          ⟨inst.notes.map (fun note =>
            ⟨shiftPitch info.lower info.raise tonic note.pitch⟩)⟩)⟩,
       .ok (displayLabel mode)) := by
  unfold convert_to_mode
  rw [h]

/-- `convert_to_mode` on an unregistered mode, written out. -/
theorem convert_to_mode_none {mode : String} (h : lookupMode mode = none)
    (pm : PrettyMIDI) (tonic : Int) :
    convert_to_mode pm tonic mode = (pm, .error ("Unsupported mode: " ++ mode)) := by
  unfold convert_to_mode
  rw [h]

/-- For every registry entry, shifting a degree already moved by one
semitone lands outside both degree sets: no mode in the table lowers
or raises a degree adjacent (in the shifted direction) to another
set member.  Checked by enumeration over the nine entries and the
twelve degrees. -/
theorem shiftPitch_idem {info : ModeInfo} (hinfo : info ∈ MODE_MAP.map Prod.snd)
    (tonic p : Int) :
    shiftPitch info.lower info.raise tonic (shiftPitch info.lower info.raise tonic p) =
      shiftPitch info.lower info.raise tonic p := by
  have key : ∀ e ∈ MODE_MAP.map Prod.snd, ∀ d ∈ Finset.Icc (0 : Int) 11,
      (d ∈ e.lower → ((d - 1) % 12 ∉ e.lower ∧ (d - 1) % 12 ∉ e.raise)) ∧
      (d ∈ e.raise → ((d + 1) % 12 ∉ e.lower ∧ (d + 1) % 12 ∉ e.raise)) := by decide
  have hd0 : 0 ≤ (p - tonic) % 12 := Int.emod_nonneg _ (by norm_num)
  have hd12 : (p - tonic) % 12 < 12 := Int.emod_lt_of_pos _ (by norm_num)
  have hk := key info hinfo ((p - tonic) % 12) (Finset.mem_Icc.2 ⟨hd0, by omega⟩)
  simp only [shiftPitch_eq]
  by_cases hl : (p - tonic) % 12 ∈ info.lower
  · obtain ⟨hnl, hnr⟩ := hk.1 hl
    have h1 : (p - 1 - tonic) % 12 = ((p - tonic) % 12 - 1) % 12 := by omega
    rw [if_pos hl, h1, if_neg hnl, if_neg hnr]
  · by_cases hr : (p - tonic) % 12 ∈ info.raise
    · obtain ⟨hnl, hnr⟩ := hk.2 hr
      have h1 : (p + 1 - tonic) % 12 = ((p - tonic) % 12 + 1) % 12 := by omega
      rw [if_neg hl, if_pos hr, h1, if_neg hnl, if_neg hnr]
    · rw [if_neg hl, if_neg hr, if_neg hl, if_neg hr]

/-- Applying the same conversion twice produces the collection the
first application produced, for every mode string (registered or
not). -/
theorem convert_to_mode_fst_idem (pm : PrettyMIDI) (tonic : Int) (mode : String) :
    (convert_to_mode (convert_to_mode pm tonic mode).1 tonic mode).1 =
      (convert_to_mode pm tonic mode).1 := by
  cases hl : lookupMode mode with
  | none =>
    have h2 : (convert_to_mode pm tonic mode).1 = pm := by
      rw [convert_to_mode_none hl pm tonic]
    rw [h2, convert_to_mode_none hl pm tonic]
  | some info =>
    have hinfo : info ∈ MODE_MAP.map Prod.snd :=
      List.mem_map.2 ⟨(mode, info), lookupMode_mem hl, rfl⟩
    have h2 : (convert_to_mode pm tonic mode).1 =
        ⟨pm.instruments.map (fun inst =>
          ⟨inst.notes.map (fun note =>
            ⟨shiftPitch info.lower info.raise tonic note.pitch⟩)⟩)⟩ := by
      rw [convert_to_mode_some hl pm tonic]
    rw [h2, convert_to_mode_some hl _ tonic]
    dsimp only
    congr 1
    rw [List.map_map]
    apply List.map_congr_left
    intro inst _
    dsimp only [Function.comp]
    congr 1
    rw [List.map_map]
    apply List.map_congr_left
    intro note _
    dsimp only [Function.comp]
    exact congrArg Note.mk (shiftPitch_idem hinfo tonic note.pitch)

/-- C2 (counterexample): contrary to the claim, there is **no** note
collection, tonic in [0,11] and registered mode on which applying the
conversion twice with the same parameters differs from applying it
once: in this registry every lowered degree lands outside the lower
and raise sets (and likewise for raised degrees), so the transform is
idempotent across repeated calls. -/
theorem no_mode_reapplication_changes :
    ¬ ∃ (pm : PrettyMIDI) (tonic : Int) (mode : String) (info : ModeInfo),
        lookupMode mode = some info ∧ 0 ≤ tonic ∧ tonic < 12 ∧
        (convert_to_mode (convert_to_mode pm tonic mode).1 tonic mode).1 ≠
          (convert_to_mode pm tonic mode).1 := by
  rintro ⟨pm, tonic, mode, info, -, -, -, hne⟩
  exact hne (convert_to_mode_fst_idem pm tonic mode)

/-- C2 (amended): applying `convert_to_mode` twice with the same
`(tonic, mode)` yields exactly the collection the first application
produced, for every collection, tonic and mode string — the
conversion is idempotent across repeated calls with the same
parameters for every mode of this registry. -/
theorem mode_conversion_idempotent (pm : PrettyMIDI) (tonic : Int) (mode : String) :
    (convert_to_mode (convert_to_mode pm tonic mode).1 tonic mode).1 =
      (convert_to_mode pm tonic mode).1 :=
  convert_to_mode_fst_idem pm tonic mode

/-- C1: on a registered mode, `convert_to_mode` succeeds, preserves
the instrument and note structure, and gives the note at any position
`(i, j)` the pitch obtained from that note's own prior pitch alone:
degree `(pitch - tonic) % 12` (non-negative, below 12), pitch − 1 if
the degree is in the mode's lower set, else pitch + 1 if it is in the
raise set, else unchanged. -/
theorem convert_registered_pointwise (pm : PrettyMIDI) (tonic : Int) (mode : String)
    (info : ModeInfo) (i j : Nat) (inst : Instrument) (note : Note)
    (h : lookupMode mode = some info)
    (hi : pm.instruments[i]? = some inst)
    (hj : inst.notes[j]? = some note) :
    ∃ pm', convert_to_mode pm tonic mode = (pm', .ok (displayLabel mode)) ∧
      pm'.instruments.length = pm.instruments.length ∧
      ∃ inst', pm'.instruments[i]? = some inst' ∧
        inst'.notes.length = inst.notes.length ∧
        inst'.notes[j]? = some
          ⟨if (note.pitch - tonic) % 12 ∈ info.lower then note.pitch - 1
           else if (note.pitch - tonic) % 12 ∈ info.raise then note.pitch + 1
           else note.pitch⟩ ∧
        0 ≤ (note.pitch - tonic) % 12 ∧ (note.pitch - tonic) % 12 < 12 := by
  refine ⟨⟨pm.instruments.map (fun inst =>
      ⟨inst.notes.map (fun note =>
        ⟨shiftPitch info.lower info.raise tonic note.pitch⟩)⟩)⟩,
    convert_to_mode_some h pm tonic, by simp, ?_⟩
  refine ⟨⟨inst.notes.map (fun note =>
      ⟨shiftPitch info.lower info.raise tonic note.pitch⟩)⟩, ?_, by simp, ?_,
    Int.emod_nonneg _ (by norm_num), Int.emod_lt_of_pos _ (by norm_num)⟩
  · dsimp only
    rw [List.getElem?_map, hi]
    rfl
  · dsimp only
    rw [List.getElem?_map, hj]
    rfl

/-- Witness for C1: one note of pitch 64 (degree 4 over tonic 0),
converted to aeolian, is lowered to 63. -/
theorem convert_registered_pointwise_witness :
    ∃ pm', convert_to_mode ⟨[⟨[⟨64⟩]⟩]⟩ 0 "aeolian" = (pm', .ok (displayLabel "aeolian")) ∧
      pm'.instruments.length = (⟨[⟨[⟨64⟩]⟩]⟩ : PrettyMIDI).instruments.length ∧
      ∃ inst', pm'.instruments[0]? = some inst' ∧
        inst'.notes.length = (⟨[⟨64⟩]⟩ : Instrument).notes.length ∧
        inst'.notes[0]? = some
          ⟨if (((⟨64⟩ : Note).pitch - 0) % 12) ∈ (⟨{4, 9, 11}, ∅⟩ : ModeInfo).lower
            then (⟨64⟩ : Note).pitch - 1
           else if (((⟨64⟩ : Note).pitch - 0) % 12) ∈ (⟨{4, 9, 11}, ∅⟩ : ModeInfo).raise
            then (⟨64⟩ : Note).pitch + 1
           else (⟨64⟩ : Note).pitch⟩ ∧
        0 ≤ ((⟨64⟩ : Note).pitch - 0) % 12 ∧ ((⟨64⟩ : Note).pitch - 0) % 12 < 12 :=
  convert_registered_pointwise ⟨[⟨[⟨64⟩]⟩]⟩ 0 "aeolian" ⟨{4, 9, 11}, ∅⟩ 0 0
    ⟨[⟨64⟩]⟩ ⟨64⟩ rfl rfl rfl

/-- The flattened pitch list has one entry per note. -/
theorem length_allPitches (pm : PrettyMIDI) :
    (allPitches pm).length = totalNotes pm := by
  unfold allPitches totalNotes
  rw [List.length_flatten, List.map_map]
  refine congrArg List.sum (List.map_congr_left ?_)
  intro inst _
  simp [Function.comp]

/-- Characterization of a successful tonic inference: on a non-empty
pitch list, `infer_tonic_median` succeeds and returns one of the
collection's pitches whose pitch class is the most frequent pitch
class `k` (the one `most_common1` selects). -/
theorem infer_tonic_median_spec (pm : PrettyMIDI) (h : allPitches pm ≠ []) :
    ∃ k p, most_common1 ((allPitches pm).map (fun x => x % 12)) = some k ∧
      infer_tonic_median pm = .ok p ∧ p ∈ allPitches pm ∧ p % 12 = k := by
  have hpcs : (allPitches pm).map (fun x => x % 12) ≠ [] := by simpa using h
  obtain ⟨k, hk, hkmem, -⟩ := most_common1_spec hpcs
  obtain ⟨p0, hp0, hp0pc⟩ := List.mem_map.1 hkmem
  have hfil : p0 ∈ (allPitches pm).filter (fun p => p % 12 == k) :=
    List.mem_filter.2 ⟨hp0, by simp [hp0pc]⟩
  have hsne : ((allPitches pm).filter (fun p => p % 12 == k)).insertionSort (· ≤ ·) ≠ [] := by
    intro hnil
    have hmem := (List.mem_insertionSort (r := (· ≤ ·))).2 hfil
    rw [hnil] at hmem
    exact (List.not_mem_nil p0) hmem
  have hpos : 0 <
      (((allPitches pm).filter (fun p => p % 12 == k)).insertionSort (· ≤ ·)).length :=
    List.length_pos.2 hsne
  have hlt : (((allPitches pm).filter (fun p => p % 12 == k)).insertionSort (· ≤ ·)).length / 2 <
      (((allPitches pm).filter (fun p => p % 12 == k)).insertionSort (· ≤ ·)).length :=
    Nat.div_lt_self hpos one_lt_two
  have hgd := List.getD_eq_getElem
    (((allPitches pm).filter (fun p => p % 12 == k)).insertionSort (· ≤ ·)) 0 hlt
  refine ⟨k, (((allPitches pm).filter (fun p => p % 12 == k)).insertionSort (· ≤ ·)).getD
      ((((allPitches pm).filter (fun p => p % 12 == k)).insertionSort (· ≤ ·)).length / 2) 0,
    hk, ?_, ?_, ?_⟩
  · simp only [infer_tonic_median]
    rw [if_neg (by simpa [List.isEmpty_iff] using h)]
    rw [hk]
    rfl
  · rw [hgd]
    have hmem := List.getElem_mem (l := ((allPitches pm).filter
      (fun p => p % 12 == k)).insertionSort (· ≤ ·)) hlt
    have hmem2 := (List.mem_insertionSort (r := (· ≤ ·))).1 hmem
    exact (List.mem_filter.1 hmem2).1
  · rw [hgd]
    have hmem := List.getElem_mem (l := ((allPitches pm).filter
      (fun p => p % 12 == k)).insertionSort (· ≤ ·)) hlt
    have hmem2 := (List.mem_insertionSort (r := (· ≤ ·))).1 hmem
    have := (List.mem_filter.1 hmem2).2
    simpa using this

/-- For pitches in the MIDI range, parsing the generated note name
recovers the pitch number: `note_name_to_number` is a left inverse of
`note_number_to_name` on [0, 128). -/
theorem name_roundtrip {p : Int} (h0 : 0 ≤ p) (h1 : p < 128) :
    note_name_to_number (note_number_to_name p) = some p := by
  have hall : ∀ q : Fin 128,
      note_name_to_number (note_number_to_name (q.val : Int)) = some (q.val : Int) := by
    decide
  have h := hall ⟨p.toNat, by omega⟩
  simpa [Int.toNat_of_nonneg h0] using h

/-- C3: whenever pitch class `k` strictly outnumbers every other
pitch class in the collection (counting `pitch % 12` over all notes
of all instrument groups), tonic inference selects `k`: the internal
`most_common(1)` choice is `k` and the returned median pitch has
pitch class `k`, for every octave placement and instrument
partition. -/
theorem infer_tonic_strict_majority (pm : PrettyMIDI) (k : Int)
    (hpos : 0 < ((allPitches pm).map (fun x => x % 12)).count k)
    (hmaj : ∀ j ∈ (allPitches pm).map (fun x => x % 12), j ≠ k →
      ((allPitches pm).map (fun x => x % 12)).count j <
        ((allPitches pm).map (fun x => x % 12)).count k) :
    most_common1 ((allPitches pm).map (fun x => x % 12)) = some k ∧
    ∃ p, infer_tonic_median pm = .ok p ∧ p % 12 = k := by
  have hkmem : k ∈ (allPitches pm).map (fun x => x % 12) := List.count_pos_iff.1 hpos
  have h1 : most_common1 ((allPitches pm).map (fun x => x % 12)) = some k :=
    most_common1_majority hkmem hmaj
  have hne : allPitches pm ≠ [] := by
    intro h0
    rw [h0] at hkmem
    simp at hkmem
  obtain ⟨k', p, hk', hmed, -, hpc⟩ := infer_tonic_median_spec pm hne
  have hkk : k' = k := by
    rw [h1] at hk'
    exact (Option.some.inj hk').symm
  exact ⟨h1, p, hmed, by rw [hpc, hkk]⟩

/-- Witness for C3: pitch class 0 appears twice (in two octaves and
two instrument groups), pitch class 3 once; the inferred tonic is 0. -/
theorem infer_tonic_strict_majority_witness :
    most_common1 ((allPitches ⟨[⟨[⟨60⟩, ⟨72⟩]⟩, ⟨[⟨63⟩]⟩]⟩).map (fun x => x % 12)) =
      some 0 ∧
    ∃ p, infer_tonic_median ⟨[⟨[⟨60⟩, ⟨72⟩]⟩, ⟨[⟨63⟩]⟩]⟩ = .ok p ∧ p % 12 = 0 :=
  infer_tonic_strict_majority ⟨[⟨[⟨60⟩, ⟨72⟩]⟩, ⟨[⟨63⟩]⟩]⟩ 0 (by decide) (by decide)

/-- C5: tonic inference fails, with exactly the no-notes error, if
and only if the collection holds zero notes across all instrument
groups; with at least one note it returns (without failing) a pitch
whose pitch class lies in [0, 11]. -/
theorem infer_tonic_empty_iff (pm : PrettyMIDI) :
    (infer_tonic_median pm = .error "No notes found in this MIDI to infer a tonic from."
      ↔ totalNotes pm = 0) ∧
    (totalNotes pm ≠ 0 →
      ∃ p, infer_tonic_median pm = .ok p ∧ 0 ≤ p % 12 ∧ p % 12 < 12) := by
  have hempty : allPitches pm = [] ↔ totalNotes pm = 0 := by
    rw [← length_allPitches, List.length_eq_zero]
  constructor
  · constructor
    · intro herr
      by_contra hne
      have hne' : allPitches pm ≠ [] := fun h0 => hne (hempty.1 h0)
      obtain ⟨k, p, -, hmed, -, -⟩ := infer_tonic_median_spec pm hne'
      rw [hmed] at herr
      exact Except.noConfusion herr
    · intro h0
      have hnil : allPitches pm = [] := hempty.2 h0
      simp only [infer_tonic_median, hnil]
      rfl
  · intro hne
    have hne' : allPitches pm ≠ [] := fun h0 => hne (hempty.1 h0)
    obtain ⟨k, p, -, hmed, -, -⟩ := infer_tonic_median_spec pm hne'
    exact ⟨p, hmed, Int.emod_nonneg _ (by norm_num), Int.emod_lt_of_pos _ (by norm_num)⟩

/-- Witness for C5 at a one-note collection. -/
theorem infer_tonic_empty_iff_witness :
    ∃ p, infer_tonic_median ⟨[⟨[⟨60⟩]⟩]⟩ = .ok p ∧ 0 ≤ p % 12 ∧ p % 12 < 12 :=
  (infer_tonic_empty_iff ⟨[⟨[⟨60⟩]⟩]⟩).2 (by decide)

/-- C9: for a non-empty collection of in-range pitches, the inferred
tonic name denotes an absolute pitch whose pitch class is the most
frequent pitch class of the collection, so decoding the name — as
both front ends do via `note_name_to_number(...) % 12` — recovers
exactly the inferred tonic pitch class. -/
theorem tonic_name_recovers_pc (pm : PrettyMIDI)
    (hne : totalNotes pm ≠ 0)
    (hrange : ∀ p ∈ allPitches pm, 0 ≤ p ∧ p < 128) :
    ∃ name p, infer_tonic_name pm = .ok name ∧
      note_name_to_number name = some p ∧
      most_common1 ((allPitches pm).map (fun x => x % 12)) = some (p % 12) ∧
      infer_tonic_pc pm = .ok (p % 12) := by
  have hne' : allPitches pm ≠ [] := by
    intro h0
    apply hne
    rw [← length_allPitches, h0]
    rfl
  obtain ⟨k, p, hk, hmed, hmem, hpc⟩ := infer_tonic_median_spec pm hne'
  obtain ⟨hp0, hp1⟩ := hrange p hmem
  have hrt : note_name_to_number (note_number_to_name p) = some p := name_roundtrip hp0 hp1
  have hname : infer_tonic_name pm = .ok (note_number_to_name p) := by
    unfold infer_tonic_name
    rw [hmed]
    rfl
  have hpcok : infer_tonic_pc pm = .ok (p % 12) := by
    unfold infer_tonic_pc
    rw [hname]
    dsimp only
    rw [hrt]
  refine ⟨note_number_to_name p, p, hname, hrt, ?_, hpcok⟩
  rw [hpc]
  exact hk

/-- Witness for C9: three notes with majority pitch class 0; the
name `"C4"` decodes back to pitch 60 with pitch class 0. -/
theorem tonic_name_recovers_pc_witness :
    ∃ name p, infer_tonic_name ⟨[⟨[⟨60⟩, ⟨60⟩, ⟨63⟩]⟩]⟩ = .ok name ∧
      note_name_to_number name = some p ∧
      most_common1 ((allPitches ⟨[⟨[⟨60⟩, ⟨60⟩, ⟨63⟩]⟩]⟩).map (fun x => x % 12)) =
        some (p % 12) ∧
      infer_tonic_pc ⟨[⟨[⟨60⟩, ⟨60⟩, ⟨63⟩]⟩]⟩ = .ok (p % 12) :=
  tonic_name_recovers_pc ⟨[⟨[⟨60⟩, ⟨60⟩, ⟨63⟩]⟩]⟩ (by decide) (by decide)
